import Mathlib

/-!
Shallow embedding of the job-ingestion pipeline of this repository.

The embedded code lives in:
- `src/providers/provider1/provider1.service.ts` (Adapter A: free-text salary,
  location and job-type parsing),
- `src/providers/provider2/provider2.service.ts` (Adapter B: typed salary
  validation),
- `src/providers/providers.service.ts` (aggregation of the two adapters),
- `src/modules/jobs/jobs.service.ts` (`load`, `findOrCreateCompanies`,
  `findOrCreateSkills`),
- `src/database/entities/*` (the entity model; `jobs` carries a unique index on
  `(provider.name, provider.jobId)`, `companies.name` and `skills.name` are
  unique columns).

Numbers are modelled as `Int` (every value the embedded flows produce is an
integer, so JavaScript float semantics never diverge on them), strings as Lean
`String`/`List Char`, dates are carried as their raw provider strings (no claim
inspects them), and every fallible TypeScript function (`throw`) returns
`Except`.  Database access is modelled by explicit state passing on a `DB`
record plus an emitted trace of bulk operations (`DbOp`), and the only race the
code can encounter (a concurrent run inserting the same natural key between the
bulk read and the bulk create) is modelled by an explicit interference list of
names committed by the concurrent writer in that window.
-/

namespace JobIngest

/-- Modelled from the spec: the services import `currencySymbolMap` from
`@/providers/contracts/currency-symbol`, a file that is absent from the
snapshot; §4.1 of the spec fixes the table as `$→USD, €→EUR, £→GBP`, used
bidirectionally.  Modelled as an ordered association list because the code
iterates `Object.keys` in insertion order. -/
def currencySymbolMap : List (String × String) :=
  [("$", "USD"), ("€", "EUR"), ("£", "GBP")]

/-- JavaScript `\s` on the characters that can actually occur in the embedded
flows (ASCII whitespace). -/
def isJsSpace (c : Char) : Bool :=
  c == ' ' || c == '\t' || c == '\n' || c == '\r' ||
    c == Char.ofNat 11 || c == Char.ofNat 12

/-- The character class `[$€£]` of the salary regex in
`Provider1Service.parseSalaryRange`. -/
def isCurrencySymbol (c : Char) : Bool :=
  c == '$' || c == '€' || c == '£'

/-- Value of a nonempty digit string, as `parseFloat` computes it on the
all-digit groups the salary regex captures. -/
def digitsToNat (ds : List Char) : Nat :=
  ds.foldl (fun a c => 10 * a + (c.toNat - 48)) 0

/-- First-key lookup in an ordered association list (JavaScript property
access / `Map.get` on maps whose keys are pairwise distinct). -/
def mapFind {α : Type} (m : List (String × α)) (k : String) : Option α :=
  match m with
  | [] => none
  | (k', v) :: rest => if k' = k then some v else mapFind rest k

/-- `currencySymbolMap[currencySymbol] || currencySymbol` in
`parseSalaryRange`: map the symbol to its code, defaulting to the symbol
itself when absent. -/
def lookupSymbol (s : String) : String :=
  (mapFind currencySymbolMap s).getD s

/-- The `Salary` embedded value object (`salary.embedded.ts`):
`min`, `max`, `currency`. -/
structure Salary where
  min : Int
  max : Int
  currency : String
deriving DecidableEq

/-- The `Location` embedded value object (`location.embedded.ts`). -/
structure Location where
  city : String
  state : String
deriving DecidableEq

/-- `JobTypeEnum` (`job-type.enum.ts`). -/
inductive JobTypeEnum
  | FullTime
  | PartTime
  | Contract
deriving DecidableEq

def invalidSalaryMsg : String :=
  "Invalid salary range format. Expected format: $minK - $maxK"

def minMaxMsg : String :=
  "Minimum value cannot be greater than the maximum value."

def invalidLocationMsg : String :=
  "Invalid location format. Expected format: City, State."

/-- One `<number>(k)?` group of the salary regex
`(?<min>\d+)(?<minK>k)?` (case-insensitive, so `K` is also accepted):
greedily take the digits, multiply by 1000 when a `k` suffix follows, and
return the remaining input.  `none` when no digit is present. -/
def parseToken (cs : List Char) : Option (Int × List Char) :=
  let ds := cs.takeWhile Char.isDigit
  if ds.isEmpty then none
  else
    match cs.dropWhile Char.isDigit with
    | c :: r2 =>
      if c = 'k' ∨ c = 'K' then some ((digitsToNat ds : Int) * 1000, r2)
      else some ((digitsToNat ds : Int), c :: r2)
    | [] => some ((digitsToNat ds : Int), [])

/-- `Provider1Service.parseSalaryRange` on the character list of the input:
the regex
`^\s*(?<currency>[$€£])\s*(?<min>\d+)(?<minK>k)?\s*-\s*\k<currency>\s*(?<max>\d+)(?<maxK>k)?\s*$/i`
rendered as the equivalent deterministic scan (the regex is anchored,
backtracking-free on this pattern, and its `i` flag only affects the `k`
suffixes), followed by the `min > max` check and the symbol→code mapping. -/
def parseSalaryChars (cs : List Char) : Except String Salary :=
  match cs.dropWhile isJsSpace with
  | [] => .error invalidSalaryMsg
  | sym :: r0 =>
    if isCurrencySymbol sym then
      match parseToken (r0.dropWhile isJsSpace) with
      | none => .error invalidSalaryMsg
      | some (v1, r1) =>
        match r1.dropWhile isJsSpace with
        | [] => .error invalidSalaryMsg
        | dash :: r2 =>
          if dash = '-' then
            match r2.dropWhile isJsSpace with
            | [] => .error invalidSalaryMsg
            | sym2 :: r3 =>
              if sym2 = sym then
                match parseToken (r3.dropWhile isJsSpace) with
                | none => .error invalidSalaryMsg
                | some (v2, r4) =>
                  if (r4.dropWhile isJsSpace).isEmpty then
                    if v1 > v2 then .error minMaxMsg
                    else .ok ⟨v1, v2, lookupSymbol (String.mk [sym])⟩
                  else .error invalidSalaryMsg
              else .error invalidSalaryMsg
          else .error invalidSalaryMsg
    else .error invalidSalaryMsg

/-- `Provider1Service.parseSalaryRange`. -/
def parseSalaryRange (s : String) : Except String Salary :=
  parseSalaryChars s.data

/-- The `formatValue` helper of `Provider1Service.toSalaryRange`:
render with a `k` suffix exactly when the value is at least 1000 and a
multiple of 1000, else render the plain decimal. -/
def formatValue (v : Int) : String :=
  if 1000 ≤ v ∧ v % 1000 = 0 then toString (v / 1000) ++ "k"
  else toString v

/-- `Provider1Service.toSalaryRange`: find the first symbol whose code equals
the salary's currency (`Object.keys(currencySymbolMap).find(...)`), error on
an unsupported currency, then format both bounds. -/
def toSalaryRange (s : Salary) : Except String String :=
  match currencySymbolMap.find? (fun kv => kv.2 == s.currency) with
  | none => .error ("Unsupported currency: " ++ s.currency)
  | some kv =>
    .ok (kv.1 ++ formatValue s.min ++ " - " ++ kv.1 ++ formatValue s.max)

/-- JavaScript `String.prototype.split(',')`: every comma is a separator;
an input with no comma yields a single segment, and `""` yields `[""]`. -/
def splitComma : List Char → List (List Char)
  | [] => [[]]
  | c :: rest =>
    if c = ',' then [] :: splitComma rest
    else
      match splitComma rest with
      | [] => [[c]]
      | h :: t => (c :: h) :: t

/-- JavaScript `String.prototype.trim()` restricted to the whitespace
characters of `isJsSpace`. -/
def jsTrim (cs : List Char) : List Char :=
  ((cs.dropWhile isJsSpace).reverse.dropWhile isJsSpace).reverse

/-- `Provider1Service.generateLocation`: split on commas, trim every segment
(`.split(',').map(i => i.trim())`), destructure the first two segments with
`''` defaults, and error when either is empty. -/
def generateLocation (s : String) : Except String Location :=
  let parts := (splitComma s.data).map jsTrim
  let city := parts.getD 0 []
  let state := parts.getD 1 []
  if city.isEmpty || state.isEmpty then .error invalidLocationMsg
  else .ok ⟨String.mk city, String.mk state⟩

/-- ASCII lowercasing, the fragment of `String.prototype.toLowerCase()` that
is relevant to the ASCII tokens `getJobType` switches on. -/
def asciiLowerChar (c : Char) : Char :=
  if 'A' ≤ c ∧ c ≤ 'Z' then Char.ofNat (c.toNat + 32) else c

/-- ASCII `toLowerCase` on a string. -/
def asciiLower (s : String) : String :=
  String.mk (s.data.map asciiLowerChar)

/-- `Provider1Service.getJobType`: switch on the lowercased token, throwing on
anything but the three known tokens. -/
def getJobType (s : String) : Except String JobTypeEnum :=
  let t := asciiLower s
  if t = "full-time" then .ok .FullTime
  else if t = "part-time" then .ok .PartTime
  else if t = "contract" then .ok .Contract
  else .error ("Invalid job type " ++ s ++
    ". expected value: Full-Time, Part-Time, Contract.")

/-- The `compensation` object of a Source-B job. -/
structure Compensation where
  min : Int
  max : Int
  currency : String
deriving DecidableEq

/-- `Provider2Service.parseSalary`: validate `min ≤ max`, then require the
currency to be the code of some symbol of the table
(`Object.keys(currencySymbolMap).findIndex(...)` ≠ -1). -/
def parseSalary (c : Compensation) : Except String Salary :=
  if c.min > c.max then .error minMaxMsg
  else if (currencySymbolMap.find? (fun kv => kv.2 == c.currency)).isSome then
    .ok ⟨c.min, c.max, c.currency⟩
  else .error ("Unsupported currency: " ++ c.currency)

/-- The `Provider` embedded value object: the provider reference
`(providerName, providerJobId)` (`provider.embedded.ts`). -/
structure ProviderRef where
  name : String
  jobId : String
deriving DecidableEq

/-- The company data a canonical job carries before reconciliation
(`CompanyEntity` fields set by the adapters: name, industry, website). -/
structure CompanyInfo where
  name : String
  industry : Option String
  website : Option String
deriving DecidableEq

/-- A canonical job as built by the adapters (`JobEntity` before persistence).
Pre-reconciliation skills are bare `new SkillEntity(name)` values, so they are
carried as their names; `postedDate` is carried as the raw provider string
(`new Date(...)` only re-encodes it and no claim inspects it). -/
structure JobEntity where
  title : String
  provider : ProviderRef
  company : CompanyInfo
  skills : List String
  salary : Salary
  isRemote : Bool
  jobType : Option JobTypeEnum
  experienceYears : Option Int
  postedDate : String
  location : Location
deriving DecidableEq

/-- Source-A `details` object. -/
structure P1Details where
  location : String
  type : String
  salaryRange : String
deriving DecidableEq

/-- Source-A `company` object. -/
structure P1Company where
  name : String
  industry : String
deriving DecidableEq

/-- One Source-A job (`provider1.interface.ts`). -/
structure P1Job where
  jobId : String
  title : String
  details : P1Details
  company : P1Company
  skills : List String
  postedDate : String
deriving DecidableEq

/-- The Source-A payload (`{ metadata, jobs }`; the metadata is never read). -/
structure Provider1Payload where
  jobs : List P1Job
deriving DecidableEq

/-- `Provider1Service.toJob`: normalize one Source-A job, propagating the
first parsing failure (salary, then location, then job type, in the order the
object literal evaluates them). -/
def p1toJob (j : P1Job) : Except String JobEntity := do
  let salary ← parseSalaryRange j.details.salaryRange
  let location ← generateLocation j.details.location
  let jobType ← getJobType j.details.type
  .ok
    { title := j.title
      provider := ⟨"Provider1", j.jobId⟩
      company := ⟨j.company.name, some j.company.industry, none⟩
      skills := j.skills
      salary := salary
      isRemote := false
      jobType := some jobType
      experienceYears := none
      postedDate := j.postedDate
      location := location }

/-- Source-B `location` object. -/
structure P2Location where
  city : String
  state : String
  remote : Bool
deriving DecidableEq

/-- Source-B `employer` object. -/
structure P2Employer where
  companyName : String
  website : String
deriving DecidableEq

/-- Source-B `requirements` object. -/
structure P2Requirements where
  experience : Int
  technologies : List String
deriving DecidableEq

/-- One Source-B job (`provider2.interface.ts`). -/
structure P2Job where
  position : String
  location : P2Location
  compensation : Compensation
  employer : P2Employer
  requirements : P2Requirements
  datePosted : String
deriving DecidableEq

/-- The Source-B payload: `data.jobsList` keyed by an opaque id, modelled as
the ordered entry list that `Object.entries` yields on it (the ids the source
uses are non-numeric strings, for which JavaScript preserves insertion
order). -/
structure Provider2Payload where
  jobsList : List (String × P2Job)
deriving DecidableEq

/-- `Provider2Service.toJob` on one `Object.entries` entry (the service wraps
each entry back into a singleton object and immediately destructures it). -/
def p2toJob (jobId : String) (j : P2Job) : Except String JobEntity := do
  let salary ← parseSalary j.compensation
  .ok
    { title := j.position
      provider := ⟨"Provider2", jobId⟩
      company := ⟨j.employer.companyName, none, some j.employer.website⟩
      skills := j.requirements.technologies
      salary := salary
      isRemote := j.location.remote
      jobType := none
      experienceYears := some j.requirements.experience
      postedDate := j.datePosted
      location := ⟨j.location.city, j.location.state⟩ }

/-- JavaScript `Array.prototype.map` with a throwing callback: elements are
visited in order and the first failure aborts the whole map. -/
def exceptMapList {α β : Type} (f : α → Except String β) :
    List α → Except String (List β)
  | [] => .ok []
  | a :: as =>
    match f a with
    | .error e => .error e
    | .ok b =>
      match exceptMapList f as with
      | .error e => .error e
      | .ok bs => .ok (b :: bs)

/-- The normalization half of `Provider1Service.load`:
`data.jobs.map(j => this.toJob(j))`. -/
def provider1Normalize (p : Provider1Payload) : Except String (List JobEntity) :=
  exceptMapList p1toJob p.jobs

/-- The normalization half of `Provider2Service.load`:
`Object.entries(data.data.jobsList).map(([id, j]) => this.toJob({[id]: j}))`. -/
def provider2Normalize (p : Provider2Payload) : Except String (List JobEntity) :=
  exceptMapList (fun e => p2toJob e.1 e.2) p.jobsList

/-- `ProvidersService.load`:
`[...(await provider1.load()), ...(await provider2.load())]` — provider 1 is
awaited first, a rejection of either provider rejects the whole call, and on
success the outputs are concatenated in provider order. -/
def providersServiceLoad (r1 r2 : Except String (List JobEntity)) :
    Except String (List JobEntity) := do
  let a ← r1
  let b ← r2
  .ok (a ++ b)

/-- A persisted `companies` row (`company.entity.ts`; `name` is a unique
column). -/
structure CompanyRow where
  id : Nat
  name : String
  industry : Option String
  website : Option String
deriving DecidableEq

/-- A persisted `skills` row (`skill.entity.ts`; `name` is a unique
column). -/
structure SkillRow where
  id : Nat
  name : String
deriving DecidableEq

/-- A persisted `jobs` row: the canonical fields plus the storage id and the
resolved company/skill identities (`job.entity.ts`; the table carries a unique
index on `(provider.name, provider.jobId)`). -/
structure JobRow where
  id : Nat
  entity : JobEntity
  companyId : Nat
  skillIds : List Nat
deriving DecidableEq

/-- The storage state: the three tables plus one fresh-id counter. -/
structure DB where
  companies : List CompanyRow
  skills : List SkillRow
  jobs : List JobRow
  nextId : Nat
deriving DecidableEq

/-- One bulk storage round trip issued by `JobsService.load`. -/
inductive DbOp
  | readCompanies (names : List String)
  | createCompanies (names : List String)
  | readSkills (names : List String)
  | createSkills (names : List String)
  | saveJobs (count : Nat)
deriving DecidableEq

/-- A uniqueness-constraint violation raised by the storage layer. -/
inductive DbError
  | uniqueCompany (name : String)
  | uniqueSkill (name : String)
  | uniqueJob (ref : ProviderRef)
deriving DecidableEq

/-- `[...new Set(list)]`: distinct elements in first-occurrence order. -/
def dedupAux (seen : List String) : List String → List String
  | [] => []
  | a :: as =>
    if a ∈ seen then dedupAux seen as
    else a :: dedupAux (a :: seen) as

/-- `[...new Set(list)]`. -/
def dedup (l : List String) : List String :=
  dedupAux [] l

/-- `companyRepository.save(newEntities)` on id-less entities: insert each in
order with a fresh id (the code creates them with only the `name` set), and
return the saved rows in order. -/
def insertCompanies (db : DB) : List String → DB × List CompanyRow
  | [] => (db, [])
  | n :: ns =>
    let row : CompanyRow := ⟨db.nextId, n, none, none⟩
    let db' : DB :=
      { db with companies := db.companies ++ [row], nextId := db.nextId + 1 }
    let res := insertCompanies db' ns
    (res.1, row :: res.2)

/-- `skillRepository.save(newEntities)` on id-less entities. -/
def insertSkills (db : DB) : List String → DB × List SkillRow
  | [] => (db, [])
  | n :: ns =>
    let row : SkillRow := ⟨db.nextId, n⟩
    let db' : DB :=
      { db with skills := db.skills ++ [row], nextId := db.nextId + 1 }
    let res := insertSkills db' ns
    (res.1, row :: res.2)

/-- `JobsService.findOrCreateCompanies`: dedupe the referenced names, issue
one bulk read, bulk-create the names not found, and merge both into one
name→row map.  `interference` is the set of names a concurrent run committed
between the bulk read and the bulk create; the code has no conflict handling,
so a colliding insert surfaces as a uniqueness-violation error. -/
def findOrCreateCompanies (db : DB) (interference : List String)
    (companiesDto : List CompanyInfo) :
    Except DbError (List (String × CompanyRow)) × DB × List DbOp :=
  let companyNames := dedup (companiesDto.map (fun c => c.name))
  let existing := db.companies.filter (fun c => c.name ∈ companyNames)
  let existingMap := existing.map (fun c => (c.name, c))
  let newNames :=
    companyNames.filter (fun n => (mapFind existingMap n).isNone)
  let readOps := [DbOp.readCompanies companyNames]
  if newNames.isEmpty then (.ok existingMap, db, readOps)
  else
    match newNames.find? (fun n => interference.contains n) with
    | some n =>
      (.error (.uniqueCompany n), db,
        readOps ++ [DbOp.createCompanies newNames])
    | none =>
      let res := insertCompanies db newNames
      (.ok (existingMap ++ res.2.map (fun c => (c.name, c))), res.1,
        readOps ++ [DbOp.createCompanies newNames])

/-- `JobsService.findOrCreateSkills` (same algorithm over skill names). -/
def findOrCreateSkills (db : DB) (interference : List String)
    (skillsDto : List String) :
    Except DbError (List (String × SkillRow)) × DB × List DbOp :=
  let skillNames := dedup skillsDto
  let existing := db.skills.filter (fun s => s.name ∈ skillNames)
  let existingMap := existing.map (fun s => (s.name, s))
  let newNames := skillNames.filter (fun n => (mapFind existingMap n).isNone)
  let readOps := [DbOp.readSkills skillNames]
  if newNames.isEmpty then (.ok existingMap, db, readOps)
  else
    match newNames.find? (fun n => interference.contains n) with
    | some n =>
      (.error (.uniqueSkill n), db, readOps ++ [DbOp.createSkills newNames])
    | none =>
      let res := insertSkills db newNames
      (.ok (existingMap ++ res.2.map (fun s => (s.name, s))), res.1,
        readOps ++ [DbOp.createSkills newNames])

/-- First provider reference of the batch that collides with an
already-persisted reference or with an earlier batch element — the reference
on which the sequential inserts of `jobRepository.save` would first violate
the unique `(provider.name, provider.jobId)` index. -/
def firstRefConflict (existing : List ProviderRef) :
    List ProviderRef → Option ProviderRef
  | [] => none
  | r :: rs =>
    if r ∈ existing then some r else firstRefConflict (r :: existing) rs

/-- Insert prepared job rows in order with fresh ids. -/
def insertJobs (db : DB) : List (JobEntity × Nat × List Nat) → DB × List JobRow
  | [] => (db, [])
  | (j, cid, sids) :: rest =>
    let row : JobRow := ⟨db.nextId, j, cid, sids⟩
    let db' : DB :=
      { db with jobs := db.jobs ++ [row], nextId := db.nextId + 1 }
    let res := insertJobs db' rest
    (res.1, row :: res.2)

/-- `jobRepository.save(jobsToSave)` on id-less entities: one transactional
bulk insert — it never updates by provider reference, so any duplicate
reference (against the table or within the batch) violates the unique index
and rolls the whole save back. -/
def saveJobs (db : DB) (toSave : List (JobEntity × Nat × List Nat)) :
    Except DbError (List JobRow) × DB × List DbOp :=
  let op := [DbOp.saveJobs toSave.length]
  match firstRefConflict (db.jobs.map (fun r => r.entity.provider))
      (toSave.map (fun t => t.1.provider)) with
  | some ref => (.error (.uniqueJob ref), db, op)
  | none =>
    let res := insertJobs db toSave
    (.ok res.2, res.1, op)

/-- A load failure before wrapping: either a provider (transport or
normalization) rejection, or a storage error. -/
inductive LoadFailure
  | provider (msg : String)
  | db (e : DbError)
deriving DecidableEq

/-- The message of the `InternalServerErrorException` that
`JobsService.load`'s catch block wraps every failure into. -/
def loadErrorMsg : String := "An error occurred while loading jobs."

/-- `JobsService.load` before its catch block, over the aggregated provider
result `r`: early-return on an empty batch, reconcile companies then skills,
rewrite each job's references through the two maps (`companiesMap.get`,
`skillsMap.get(...)` filtered by `Boolean`), and persist the batch in one
save.  `intC`/`intS` are the natural keys a concurrent run committed inside
the two read→create windows. -/
def jobsServiceLoadRaw (r : Except String (List JobEntity)) (db : DB)
    (intC intS : List String) :
    Except LoadFailure (List JobRow) × DB × List DbOp :=
  match r with
  | .error msg => (.error (.provider msg), db, [])
  | .ok jobEntities =>
    if jobEntities.isEmpty then (.ok [], db, [])
    else
      match findOrCreateCompanies db intC
          (jobEntities.map (fun j => j.company)) with
      | (.error e, db1, ops1) => (.error (.db e), db1, ops1)
      | (.ok cmap, db1, ops1) =>
        match findOrCreateSkills db1 intS
            (jobEntities.flatMap (fun j => j.skills)) with
        | (.error e, db2, ops2) => (.error (.db e), db2, ops1 ++ ops2)
        | (.ok smap, db2, ops2) =>
          let toSave := jobEntities.map (fun j =>
            let cid := ((mapFind cmap j.company.name).map
              (fun c => c.id)).getD 0
            let sids := j.skills.filterMap
              (fun s => (mapFind smap s).map (fun row => row.id))
            (j, cid, sids))
          match saveJobs db2 toSave with
          | (.error e, db3, ops3) => (.error (.db e), db3, ops1 ++ ops2 ++ ops3)
          | (.ok rows, db3, ops3) => (.ok rows, db3, ops1 ++ ops2 ++ ops3)

/-- `JobsService.load`: the raw pipeline with its catch block, which wraps any
failure into one `InternalServerErrorException`. -/
def jobsServiceLoad (r : Except String (List JobEntity)) (db : DB)
    (intC intS : List String) :
    Except String (List JobRow) × DB × List DbOp :=
  match jobsServiceLoadRaw r db intC intS with
  | (.error _, db', ops) => (.error loadErrorMsg, db', ops)
  | (.ok rows, db', ops) => (.ok rows, db', ops)

/-- Decidable equality on `Except`, so the concrete evaluations in the
witnesses below can go through `decide`. -/
instance {ε α : Type} [DecidableEq ε] [DecidableEq α] :
    DecidableEq (Except ε α) := fun x y =>
  match x, y with
  | .ok a, .ok b =>
    if h : a = b then .isTrue (by rw [h])
    else .isFalse (fun hc => by cases hc; exact h rfl)
  | .error a, .error b =>
    if h : a = b then .isTrue (by rw [h])
    else .isFalse (fun hc => by cases hc; exact h rfl)
  | .ok _, .error _ => .isFalse (fun hc => by cases hc)
  | .error _, .ok _ => .isFalse (fun hc => by cases hc)

/-- The value of one salary-regex `<number>(k)?` group when it is a complete
token: `parseToken` consuming the whole input. -/
def tokenVal (cs : List Char) : Option Int :=
  match parseToken cs with
  | some (v, []) => some v
  | _ => none

/-- Discriminator for the bulk company read in an operation trace. -/
def isCompanyRead : DbOp → Bool
  | .readCompanies _ => true
  | _ => false

/-- Discriminator for the bulk company create in an operation trace. -/
def isCompanyCreate : DbOp → Bool
  | .createCompanies _ => true
  | _ => false

/-- Discriminator for the bulk skill read in an operation trace. -/
def isSkillRead : DbOp → Bool
  | .readSkills _ => true
  | _ => false

/-- Discriminator for the bulk skill create in an operation trace. -/
def isSkillCreate : DbOp → Bool
  | .createSkills _ => true
  | _ => false

/-- A concrete canonical job used by the witnesses below. -/
def sampleJobA : JobEntity :=
  { title := "Backend Engineer", provider := ⟨"Provider1", "P1-1"⟩,
    company := ⟨"Acme", some "Tech", none⟩, skills := ["TypeScript"],
    salary := ⟨69000, 141000, "USD"⟩, isRemote := false,
    jobType := some .FullTime, experienceYears := none,
    postedDate := "2024-01-01", location := ⟨"San Francisco", "CA"⟩ }

/-- The storage state left by a first, successful `load` of `sampleJobA`
into an empty database. -/
def sampleDb : DB :=
  (jobsServiceLoad (.ok [sampleJobA]) ⟨[], [], [], 1⟩ [] []).2.1

/-- A concrete Source-A payload with one normalizable job. -/
def samplePayload1 : Provider1Payload :=
  { jobs := [
      { jobId := "P1-1"
        title := "Backend Engineer"
        details := { location := "San Francisco, CA"
                     type := "Full-Time"
                     salaryRange := "$69k - $141k" }
        company := { name := "Acme", industry := "Tech" }
        skills := ["TypeScript"]
        postedDate := "2024-01-01" }] }

/-- A concrete Source-B payload with one normalizable job. -/
def samplePayload2 : Provider2Payload :=
  { jobsList := [
      ("job-2",
       { position := "Data Engineer"
         location := { city := "New York", state := "NY", remote := true }
         compensation := { min := 50000, max := 80000, currency := "USD" }
         employer := { companyName := "Globex"
                       website := "https://globex.example" }
         requirements := { experience := 3, technologies := ["Go"] }
         datePosted := "2024-01-02" })] }

/-- The canonical job `samplePayload1` normalizes to. -/
def sampleExpected1 : JobEntity :=
  { title := "Backend Engineer", provider := ⟨"Provider1", "P1-1"⟩,
    company := ⟨"Acme", some "Tech", none⟩, skills := ["TypeScript"],
    salary := ⟨69000, 141000, "USD"⟩, isRemote := false,
    jobType := some .FullTime, experienceYears := none,
    postedDate := "2024-01-01", location := ⟨"San Francisco", "CA"⟩ }

/-- The canonical job `samplePayload2` normalizes to. -/
def sampleExpected2 : JobEntity :=
  { title := "Data Engineer", provider := ⟨"Provider2", "job-2"⟩,
    company := ⟨"Globex", none, some "https://globex.example"⟩,
    skills := ["Go"], salary := ⟨50000, 80000, "USD"⟩, isRemote := true,
    jobType := none, experienceYears := some 3,
    postedDate := "2024-01-02", location := ⟨"New York", "NY"⟩ }

/-! Helper lemmas. -/

theorem takeWhile_append_of (p : Char → Bool) (ds rest : List Char)
    (hds : ∀ c ∈ ds, p c = true)
    (hrest : ∀ c, rest.head? = some c → p c = false) :
    (ds ++ rest).takeWhile p = ds := by
  induction ds with
  | nil =>
    simp only [List.nil_append]
    cases rest with
    | nil => rfl
    | cons c l => simp [List.takeWhile_cons, hrest c rfl]
  | cons d ds ih =>
    have hd : p d = true := hds d (by simp)
    simp only [List.cons_append, List.takeWhile_cons, hd, if_true]
    rw [ih (fun c hc => hds c (by simp [hc]))]

theorem dropWhile_append_of (p : Char → Bool) (ds rest : List Char)
    (hds : ∀ c ∈ ds, p c = true)
    (hrest : ∀ c, rest.head? = some c → p c = false) :
    (ds ++ rest).dropWhile p = rest := by
  induction ds with
  | nil =>
    simp only [List.nil_append]
    cases rest with
    | nil => rfl
    | cons c l => simp [List.dropWhile_cons, hrest c rfl]
  | cons d ds ih =>
    have hd : p d = true := hds d (by simp)
    simp only [List.cons_append, List.dropWhile_cons, hd, if_true]
    exact ih (fun c hc => hds c (by simp [hc]))

theorem dropWhile_head_false (p : Char → Bool) (cs : List Char)
    (h : ∀ c, cs.head? = some c → p c = false) :
    cs.dropWhile p = cs := by
  have := dropWhile_append_of p [] cs (by simp) h
  simpa using this

theorem digit_not_ws (c : Char) (h : c.isDigit = true) : isJsSpace c = false := by
  by_contra hc
  have hc' : isJsSpace c = true := by
    cases hx : isJsSpace c
    · exact absurd hx hc
    · rfl
  simp only [isJsSpace, Bool.or_eq_true, beq_iff_eq] at hc'
  rcases hc' with (((((h1 | h1) | h1) | h1) | h1) | h1) <;>
    (subst h1; exact absurd h (by decide))

theorem symbol_not_ws (c : Char) (h : isCurrencySymbol c = true) :
    isJsSpace c = false := by
  simp only [isCurrencySymbol, Bool.or_eq_true, beq_iff_eq] at h
  rcases h with ((h1 | h1) | h1) <;> (subst h1; decide)

theorem dedupAux_mem (a : String) :
    ∀ (l seen : List String), a ∈ dedupAux seen l ↔ a ∈ l ∧ a ∉ seen := by
  intro l
  induction l with
  | nil => intro seen; simp [dedupAux]
  | cons b l ih =>
    intro seen
    by_cases hb : b ∈ seen
    · rw [dedupAux, if_pos hb, ih]
      constructor
      · rintro ⟨h1, h2⟩; exact ⟨by simp [h1], h2⟩
      · rintro ⟨h1, h2⟩
        rcases List.mem_cons.mp h1 with rfl | h1
        · exact absurd hb h2
        · exact ⟨h1, h2⟩
    · rw [dedupAux, if_neg hb]
      constructor
      · intro h
        rcases List.mem_cons.mp h with rfl | h
        · exact ⟨by simp, hb⟩
        · rcases (ih (b :: seen)).mp h with ⟨h1, h2⟩
          exact ⟨by simp [h1], fun hs => h2 (by simp [hs])⟩
      · rintro ⟨h1, h2⟩
        rcases List.mem_cons.mp h1 with rfl | h1
        · exact List.mem_cons_self a _
        · by_cases hab : a = b
          · subst hab; exact List.mem_cons_self a _
          · exact List.mem_cons_of_mem b
              ((ih (b :: seen)).mpr ⟨h1, by simp [hab, h2]⟩)

theorem dedup_mem (a : String) (l : List String) : a ∈ dedup l ↔ a ∈ l := by
  rw [dedup, dedupAux_mem]; simp

theorem dedupAux_nodup :
    ∀ (l seen : List String), (dedupAux seen l).Nodup := by
  intro l
  induction l with
  | nil => intro seen; simp [dedupAux]
  | cons b l ih =>
    intro seen
    by_cases hb : b ∈ seen
    · rw [dedupAux, if_pos hb]; exact ih seen
    · rw [dedupAux, if_neg hb]
      refine List.nodup_cons.mpr ⟨?_, ih (b :: seen)⟩
      intro hmem
      exact ((dedupAux_mem b l (b :: seen)).mp hmem).2 (by simp)

theorem dedup_nodup (l : List String) : (dedup l).Nodup :=
  dedupAux_nodup l []

theorem mapFind_isSome {α : Type} (m : List (String × α)) (k : String) :
    (mapFind m k).isSome ↔ k ∈ m.map Prod.fst := by
  induction m with
  | nil => simp [mapFind]
  | cons kv m ih =>
    rcases kv with ⟨k', v⟩
    by_cases h : k' = k
    · subst h; simp [mapFind]
    · rw [mapFind, if_neg h, ih]
      simp [Ne.symm h]

theorem mapFind_eq_none {α : Type} (m : List (String × α)) (k : String) :
    mapFind m k = none ↔ k ∉ m.map Prod.fst := by
  rw [← mapFind_isSome]
  cases mapFind m k <;> simp

theorem tokenVal_decomp (cs : List Char) (v : Int) (h : tokenVal cs = some v) :
    ∃ ds suf, cs = ds ++ suf ∧ ds ≠ [] ∧ (∀ c ∈ ds, c.isDigit = true) ∧
      ((suf = [] ∧ v = (digitsToNat ds : Int)) ∨
        ((suf = ['k'] ∨ suf = ['K']) ∧ v = (digitsToNat ds : Int) * 1000)) := by
  refine ⟨cs.takeWhile Char.isDigit, cs.dropWhile Char.isDigit,
    (List.takeWhile_append_dropWhile Char.isDigit cs).symm, ?_, ?_, ?_⟩
  · intro hnil
    rw [tokenVal, parseToken] at h
    simp only [hnil, List.isEmpty_nil, if_true] at h
    cases h
  · exact fun c hc => List.mem_takeWhile_imp hc
  · rw [tokenVal, parseToken] at h
    by_cases hemp : (cs.takeWhile Char.isDigit).isEmpty
    · simp [hemp] at h
    · simp only [hemp, Bool.false_eq_true, if_false] at h
      rcases hd : cs.dropWhile Char.isDigit with _ | ⟨c, r⟩ <;> rw [hd] at h
      · simp only at h
        cases h
        exact Or.inl ⟨rfl, rfl⟩
      · dsimp only at h
        by_cases hk : c = 'k' ∨ c = 'K'
        · rw [if_pos hk] at h
          cases r with
          | nil =>
            simp only at h
            cases h
            rcases hk with rfl | rfl
            · exact Or.inr ⟨Or.inl rfl, rfl⟩
            · exact Or.inr ⟨Or.inr rfl, rfl⟩
          | cons c2 r2 => simp at h
        · rw [if_neg hk] at h
          simp at h

theorem parseToken_append (ds suf rest : List Char) (v : Int)
    (hds : ds ≠ []) (hdig : ∀ c ∈ ds, c.isDigit = true)
    (hsuf : (suf = [] ∧ v = (digitsToNat ds : Int)) ∨
      ((suf = ['k'] ∨ suf = ['K']) ∧ v = (digitsToNat ds : Int) * 1000))
    (hrest : ∀ c, rest.head? = some c →
      (c.isDigit = false ∧ c ≠ 'k' ∧ c ≠ 'K')) :
    parseToken (ds ++ (suf ++ rest)) = some (v, rest) := by
  have hhead : ∀ c, (suf ++ rest).head? = some c → c.isDigit = false := by
    intro c hc
    rcases hsuf with ⟨rfl, _⟩ | ⟨hk, _⟩
    · exact (hrest c (by simpa using hc)).1
    · rcases hk with rfl | rfl <;> (simp at hc; subst hc; decide)
  have htake : (ds ++ (suf ++ rest)).takeWhile Char.isDigit = ds :=
    takeWhile_append_of Char.isDigit ds (suf ++ rest) hdig hhead
  have hdrop : (ds ++ (suf ++ rest)).dropWhile Char.isDigit = suf ++ rest :=
    dropWhile_append_of Char.isDigit ds (suf ++ rest) hdig hhead
  rw [parseToken]
  simp only [htake, hdrop]
  rw [if_neg (by simpa using hds)]
  rcases hsuf with ⟨rfl, rfl⟩ | ⟨hk, rfl⟩
  · simp only [List.nil_append]
    cases rest with
    | nil => rfl
    | cons c r =>
      have := hrest c rfl
      dsimp only
      rw [if_neg (by tauto)]
  · rcases hk with rfl | rfl <;> simp

theorem parseSalaryChars_pair (sym : Char) (t1 t2 : List Char) (v1 v2 : Int)
    (hsym : isCurrencySymbol sym = true)
    (h1 : tokenVal t1 = some v1) (h2 : tokenVal t2 = some v2) :
    parseSalaryChars (sym :: (t1 ++ (' ' :: '-' :: ' ' :: sym :: t2))) =
      (if v1 > v2 then .error minMaxMsg
       else .ok ⟨v1, v2, lookupSymbol (String.mk [sym])⟩) := by
  obtain ⟨ds1, suf1, rfl, hne1, hdig1, hsuf1⟩ := tokenVal_decomp t1 v1 h1
  obtain ⟨ds2, suf2, rfl, hne2, hdig2, hsuf2⟩ := tokenVal_decomp t2 v2 h2
  obtain ⟨d1, ds1', rfl⟩ : ∃ d l, ds1 = d :: l := by
    cases ds1 with
    | nil => exact absurd rfl hne1
    | cons d l => exact ⟨d, l, rfl⟩
  obtain ⟨d2, ds2', rfl⟩ : ∃ d l, ds2 = d :: l := by
    cases ds2 with
    | nil => exact absurd rfl hne2
    | cons d l => exact ⟨d, l, rfl⟩
  have hd1 : d1.isDigit = true := hdig1 d1 (by simp)
  have hd2 : d2.isDigit = true := hdig2 d2 (by simp)
  have hsymws : isJsSpace sym = false := symbol_not_ws sym hsym
  have hd1ws : isJsSpace d1 = false := digit_not_ws d1 hd1
  have hd2ws : isJsSpace d2 = false := digit_not_ws d2 hd2
  have hp1 : parseToken (d1 :: (ds1' ++ (suf1 ++
      (' ' :: '-' :: ' ' :: sym :: (d2 :: (ds2' ++ suf2)))))) =
      some (v1, ' ' :: '-' :: ' ' :: sym :: (d2 :: (ds2' ++ suf2))) := by
    have := parseToken_append (d1 :: ds1') suf1
      (' ' :: '-' :: ' ' :: sym :: (d2 :: (ds2' ++ suf2))) v1 hne1 hdig1 hsuf1
      (fun c hc => by
        simp only [List.head?_cons, Option.some.injEq] at hc
        rw [← hc]
        refine ⟨by decide, by decide, by decide⟩)
    simpa using this
  have hp2 : parseToken (d2 :: (ds2' ++ suf2)) = some (v2, []) := by
    have := parseToken_append (d2 :: ds2') suf2 [] v2 hne2 hdig2 hsuf2
      (fun c hc => by simp at hc)
    simpa using this
  rw [parseSalaryChars]
  rw [dropWhile_head_false isJsSpace _ (fun c hc => by
    simp only [List.head?_cons, Option.some.injEq] at hc
    rw [← hc]; exact hsymws)]
  dsimp only
  simp only [List.append_assoc, List.cons_append, List.nil_append]
  rw [if_pos hsym]
  rw [List.dropWhile_cons_of_neg (by rw [hd1ws]; exact Bool.false_ne_true)]
  rw [hp1]
  dsimp only
  rw [List.dropWhile_cons_of_pos (by decide)]
  rw [List.dropWhile_cons_of_neg (by decide)]
  dsimp only
  rw [if_pos rfl]
  rw [List.dropWhile_cons_of_pos (by decide)]
  rw [List.dropWhile_cons_of_neg (by rw [hsymws]; exact Bool.false_ne_true)]
  dsimp only
  rw [if_pos rfl]
  rw [List.dropWhile_cons_of_neg (by rw [hd2ws]; exact Bool.false_ne_true)]
  rw [hp2]
  dsimp only
  rw [List.dropWhile_nil]
  rfl

theorem toSalaryRange_symbol (sym : Char) (hsym : isCurrencySymbol sym = true)
    (v1 v2 : Int) :
    toSalaryRange ⟨v1, v2, lookupSymbol (String.mk [sym])⟩ =
      .ok (String.mk [sym] ++ formatValue v1 ++ " - " ++
        String.mk [sym] ++ formatValue v2) := by
  simp only [isCurrencySymbol, Bool.or_eq_true, beq_iff_eq] at hsym
  rcases hsym with ((rfl | rfl) | rfl) <;> rfl

/-- **C2 (amended).** For Source-A salary strings `<sym><t1> - <sym><t2>`
whose two bound tokens are written exactly as the formatter renders their
values — `k` suffix present iff the value is at least 1000 and a multiple of
1000, no leading zeros, lowercase `k` — with parsed min ≤ max, parse→format
round-trips to the identical string, and parsing yields the values of the
two tokens with the symbol's table code. -/
theorem c2_salary_roundtrip_canonical (sym : Char) (t1 t2 : String)
    (v1 v2 : Int)
    (hsym : isCurrencySymbol sym = true)
    (h1 : tokenVal t1.data = some v1) (h2 : tokenVal t2.data = some v2)
    (hf1 : formatValue v1 = t1) (hf2 : formatValue v2 = t2)
    (hle : v1 ≤ v2) :
    parseSalaryRange (String.mk [sym] ++ t1 ++ " - " ++ String.mk [sym] ++ t2) =
      .ok ⟨v1, v2, lookupSymbol (String.mk [sym])⟩ ∧
    toSalaryRange ⟨v1, v2, lookupSymbol (String.mk [sym])⟩ =
      .ok (String.mk [sym] ++ t1 ++ " - " ++ String.mk [sym] ++ t2) := by
  constructor
  · rw [parseSalaryRange]
    have hdata : (String.mk [sym] ++ t1 ++ " - " ++ String.mk [sym] ++ t2).data =
        sym :: (t1.data ++ (' ' :: '-' :: ' ' :: sym :: t2.data)) := by
      simp [String.data_append]
    rw [hdata, parseSalaryChars_pair sym t1.data t2.data v1 v2 hsym h1 h2]
    rw [if_neg (by omega)]
  · rw [toSalaryRange_symbol sym hsym, hf1, hf2]

/-- **C2 (witness).** The canonical round trip instantiated at the spec's own
example `"$69k - $141k"`. -/
theorem c2_salary_roundtrip_witness :
    parseSalaryRange "$69k - $141k" = .ok ⟨69000, 141000, "USD"⟩ ∧
    toSalaryRange ⟨69000, 141000, "USD"⟩ = .ok "$69k - $141k" := by
  have h := c2_salary_roundtrip_canonical '$' "69k" "141k" 69000 141000
    (by decide) (by decide) (by decide) (by decide) (by decide) (by decide)
  constructor
  · have h1 := h.1
    rw [show String.mk ['$'] ++ "69k" ++ " - " ++ String.mk ['$'] ++ "141k" =
      "$69k - $141k" from by decide] at h1
    rw [show lookupSymbol (String.mk ['$']) = "USD" from by decide] at h1
    exact h1
  · have h2 := h.2
    rw [show String.mk ['$'] ++ "69k" ++ " - " ++ String.mk ['$'] ++ "141k" =
      "$69k - $141k" from by decide] at h2
    rw [show lookupSymbol (String.mk ['$']) = "USD" from by decide] at h2
    exact h2

/-- **C2 (counterexample).** `"$1000 - $2000"` is a well-formed Source-A
salary string of the claimed shape (`$`-symbol on both sides, min ≤ max), yet
formatting its parse yields `"$1k - $2k"`, not the identical input: parse →
format is not the identity on all well-formed inputs. -/
theorem c2_salary_roundtrip_counterexample :
    parseSalaryRange "$1000 - $2000" = .ok ⟨1000, 2000, "USD"⟩ ∧
    toSalaryRange ⟨1000, 2000, "USD"⟩ = .ok "$1k - $2k" ∧
    ("$1k - $2k" : String) ≠ "$1000 - $2000" := by
  refine ⟨by decide, by decide, by decide⟩

/-- **C3.** Salary normalization fails in both adapters when the parsed
minimum exceeds the parsed maximum, and when the currency is outside the
fixed symbol↔code table: Adapter A rejects any `min > max` range and any
input whose (first non-space) symbol is outside the regex class, which
coincides exactly with the table's key set; Adapter B rejects numeric
`min > max` and any currency that is not a code of the table. -/
theorem c3_salary_validation :
    (∀ (sym : Char) (t1 t2 : List Char) (v1 v2 : Int),
      isCurrencySymbol sym = true → tokenVal t1 = some v1 →
      tokenVal t2 = some v2 → v2 < v1 →
      parseSalaryChars (sym :: (t1 ++ (' ' :: '-' :: ' ' :: sym :: t2))) =
        .error minMaxMsg) ∧
    (∀ s : String,
      (∀ c, (s.data.dropWhile isJsSpace).head? = some c →
        isCurrencySymbol c = false) →
      parseSalaryRange s = .error invalidSalaryMsg) ∧
    (∀ c : Char, isCurrencySymbol c = true ↔
      (mapFind currencySymbolMap (String.mk [c])).isSome) ∧
    (∀ comp : Compensation, comp.max < comp.min →
      parseSalary comp = .error minMaxMsg) ∧
    (∀ comp : Compensation, comp.min ≤ comp.max →
      (∀ kv ∈ currencySymbolMap, kv.2 ≠ comp.currency) →
      parseSalary comp = .error ("Unsupported currency: " ++ comp.currency)) := by
  refine ⟨?_, ?_, ?_, ?_, ?_⟩
  · intro sym t1 t2 v1 v2 hsym h1 h2 hlt
    rw [parseSalaryChars_pair sym t1 t2 v1 v2 hsym h1 h2]
    rw [if_pos (by omega)]
  · intro s h
    rcases hd : s.data.dropWhile isJsSpace with _ | ⟨c, r⟩ <;>
      rw [parseSalaryRange, parseSalaryChars, hd]
    have hc := h c (by simp [hd])
    dsimp only
    rw [if_neg (by rw [hc]; exact Bool.false_ne_true)]
  · intro c
    constructor
    · intro h
      simp only [isCurrencySymbol, Bool.or_eq_true, beq_iff_eq] at h
      rcases h with ((rfl | rfl) | rfl) <;> decide
    · intro h
      by_contra hcs
      have h1 : c ≠ '$' ∧ c ≠ '€' ∧ c ≠ '£' := by
        simp only [isCurrencySymbol, Bool.or_eq_true, beq_iff_eq] at hcs
        push_neg at hcs
        exact ⟨hcs.1.1, hcs.1.2, hcs.2⟩
      have e1 : ("$" : String) ≠ String.mk [c] := fun he => by
        have hdd := congrArg String.data he
        simp at hdd
        exact h1.1 hdd.symm
      have e2 : ("€" : String) ≠ String.mk [c] := fun he => by
        have hdd := congrArg String.data he
        simp at hdd
        exact h1.2.1 hdd.symm
      have e3 : ("£" : String) ≠ String.mk [c] := fun he => by
        have hdd := congrArg String.data he
        simp at hdd
        exact h1.2.2 hdd.symm
      have hnone : mapFind currencySymbolMap (String.mk [c]) = none := by
        simp only [currencySymbolMap, mapFind]
        rw [if_neg e1, if_neg e2, if_neg e3]
      rw [hnone] at h
      cases h
  · intro comp h
    unfold parseSalary
    rw [if_pos (by omega)]
  · intro comp h hkv
    unfold parseSalary
    rw [if_neg (by omega)]
    rw [List.find?_eq_none.mpr (fun kv hm => by
      simpa using hkv kv hm)]
    rfl

/-- **C3 (witness).** The validation failures at the spec's concrete
examples: `"$100k - $90k"` (min > max, Adapter A), an off-table symbol `¥`
(Adapter A), numeric min > max (Adapter B), and an off-table code `"XYZ"`
(Adapter B). -/
theorem c3_salary_validation_witness :
    parseSalaryRange "$100k - $90k" = .error minMaxMsg ∧
    parseSalaryRange "¥50k - ¥60k" = .error invalidSalaryMsg ∧
    parseSalary ⟨100000, 90000, "USD"⟩ = .error minMaxMsg ∧
    parseSalary ⟨50000, 60000, "XYZ"⟩ =
      .error ("Unsupported currency: " ++ "XYZ") := by
  refine ⟨?_, ?_, ?_, ?_⟩
  · have h := c3_salary_validation.1 '$' "100k".data "90k".data 100000 90000
      (by decide) (by decide) (by decide) (by decide)
    rw [parseSalaryRange,
      show "$100k - $90k".data =
        '$' :: ("100k".data ++ (' ' :: '-' :: ' ' :: '$' :: "90k".data))
      from by decide]
    exact h
  · exact c3_salary_validation.2.1 "¥50k - ¥60k" (fun c hc => by
      rw [show ("¥50k - ¥60k".data.dropWhile isJsSpace) = '¥' :: "50k - ¥60k".data
        from by decide] at hc
      simp only [List.head?_cons, Option.some.injEq] at hc
      rw [← hc]
      decide)
  · exact c3_salary_validation.2.2.2.1 ⟨100000, 90000, "USD"⟩ (by decide)
  · exact c3_salary_validation.2.2.2.2 ⟨50000, 60000, "XYZ"⟩ (by decide)
      (fun kv hm => by
        simp only [currencySymbolMap, List.mem_cons, List.not_mem_nil,
          or_false] at hm
        rcases hm with rfl | rfl | rfl <;> decide)

theorem splitComma_ne_nil (cs : List Char) : splitComma cs ≠ [] := by
  induction cs with
  | nil => simp [splitComma]
  | cons c rest ih =>
    rw [splitComma]
    by_cases hc : c = ','
    · simp [hc]
    · rw [if_neg hc]
      rcases hsp : splitComma rest with _ | ⟨h, t⟩
      · exact absurd hsp ih
      · simp

theorem splitComma_no_comma (cs : List Char) (h : ',' ∉ cs) :
    splitComma cs = [cs] := by
  induction cs with
  | nil => rfl
  | cons c rest ih =>
    have hc : c ≠ ',' := fun hcc => h (by simp [hcc])
    rw [splitComma, if_neg hc, ih (fun hm => h (by simp [hm]))]

theorem splitComma_append (a b : List Char) (h : ',' ∉ a) :
    splitComma (a ++ ',' :: b) = a :: splitComma b := by
  induction a with
  | nil => simp [splitComma]
  | cons c a' ih =>
    have hc : c ≠ ',' := fun hcc => h (by simp [hcc])
    rw [List.cons_append, splitComma, if_neg hc,
      ih (fun hm => h (by simp [hm]))]

/-- **C4 (amended).** `generateLocation` splits on *every* comma (not only
the first), trims every segment, uses the first two segments and ignores any
further ones; it succeeds iff both of the first two trimmed segments are
nonempty, and in particular an input with no comma always fails. -/
theorem c4_location_split (a b rest : List Char) (s : String)
    (ha : ',' ∉ a) (hb : ',' ∉ b) (hs : ',' ∉ s.data) :
    (generateLocation (String.mk (a ++ ',' :: b)) =
      (if (jsTrim a).isEmpty || (jsTrim b).isEmpty then
        .error invalidLocationMsg
       else .ok ⟨String.mk (jsTrim a), String.mk (jsTrim b)⟩)) ∧
    (generateLocation (String.mk (a ++ ',' :: (b ++ ',' :: rest))) =
      (if (jsTrim a).isEmpty || (jsTrim b).isEmpty then
        .error invalidLocationMsg
       else .ok ⟨String.mk (jsTrim a), String.mk (jsTrim b)⟩)) ∧
    generateLocation s = .error invalidLocationMsg := by
  refine ⟨?_, ?_, ?_⟩
  · rw [generateLocation]
    rw [show (String.mk (a ++ ',' :: b)).data = a ++ ',' :: b from rfl]
    rw [splitComma_append a b ha, splitComma_no_comma b hb]
    rfl
  · rw [generateLocation]
    rw [show (String.mk (a ++ ',' :: (b ++ ',' :: rest))).data =
      a ++ ',' :: (b ++ ',' :: rest) from rfl]
    rw [splitComma_append a (b ++ ',' :: rest) ha,
      splitComma_append b rest hb]
    rfl
  · rw [generateLocation, splitComma_no_comma s.data hs]
    simp

/-- **C4 (witness).** The amended split behavior at the spec's examples:
`"San Francisco, CA"` succeeds with both halves trimmed, and `"San
Francisco"` (no comma) fails. -/
theorem c4_location_split_witness :
    generateLocation "San Francisco, CA" = .ok ⟨"San Francisco", "CA"⟩ ∧
    generateLocation "San Francisco" = .error invalidLocationMsg := by
  have h := c4_location_split "San Francisco".data " CA".data [] "San Francisco"
    (by decide) (by decide) (by decide)
  constructor
  · have h1 := h.1
    rw [show String.mk ("San Francisco".data ++ ',' :: " CA".data) =
      "San Francisco, CA" from by decide] at h1
    rw [h1]
    decide
  · exact h.2.2

/-- **C4 (counterexample).** On `"a,b,c"` the code does not split on the
first comma: first-comma splitting would give state `"b,c"`, but the code
splits on every comma and keeps only the first two segments, yielding state
`"b"`. -/
theorem c4_location_split_counterexample :
    generateLocation "a,b,c" = .ok ⟨"a", "b"⟩ ∧
    generateLocation "a,b,c" ≠ .ok ⟨"a", "b,c"⟩ := by
  refine ⟨by decide, by decide⟩

/-- **C5.** The Source-A job-type mapping is exactly case-insensitive
matching of the three tokens `full-time`, `part-time`, `contract` onto the
three enum values, and everything else is an error; in particular
`"full-time"`, `"Full-Time"` map to FullTime and `"Internship"` fails. -/
theorem c5_jobtype_mapping :
    (∀ s : String,
      (getJobType s = .ok .FullTime ↔ asciiLower s = "full-time") ∧
      (getJobType s = .ok .PartTime ↔ asciiLower s = "part-time") ∧
      (getJobType s = .ok .Contract ↔ asciiLower s = "contract") ∧
      (getJobType s = .error ("Invalid job type " ++ s ++
          ". expected value: Full-Time, Part-Time, Contract.") ↔
        (asciiLower s ≠ "full-time" ∧ asciiLower s ≠ "part-time" ∧
          asciiLower s ≠ "contract"))) ∧
    getJobType "full-time" = .ok .FullTime ∧
    getJobType "Full-Time" = .ok .FullTime ∧
    getJobType "Internship" = .error ("Invalid job type " ++ "Internship" ++
      ". expected value: Full-Time, Part-Time, Contract.") := by
  refine ⟨?_, by decide, by decide, by decide⟩
  intro s
  unfold getJobType
  by_cases h1 : asciiLower s = "full-time" <;>
    by_cases h2 : asciiLower s = "part-time" <;>
      by_cases h3 : asciiLower s = "contract" <;>
        simp_all

/-- **C7.** When both adapters yield zero jobs, `load` early-returns the
empty list (not an error), leaves the storage state untouched, and issues no
bulk operation at all — in particular it creates no company and no skill
row. -/
theorem c7_empty_batch_is_ok (db : DB) :
    jobsServiceLoad (providersServiceLoad (.ok []) (.ok [])) db [] [] =
      (.ok [], db, []) := rfl

/-- **C8.** If either adapter's fetch or normalize fails, the whole `load`
call fails with the wrapped error, the storage state is unchanged, and no
bulk operation is issued — no job from the healthy adapter is persisted. -/
theorem c8_adapter_failure_aborts :
    (∀ (msg : String) (r2 : Except String (List JobEntity)) (db : DB)
       (intC intS : List String),
       jobsServiceLoad (providersServiceLoad (.error msg) r2) db intC intS =
         (.error loadErrorMsg, db, [])) ∧
    (∀ (msg : String) (l1 : List JobEntity) (db : DB)
       (intC intS : List String),
       jobsServiceLoad (providersServiceLoad (.ok l1) (.error msg)) db intC intS =
         (.error loadErrorMsg, db, [])) :=
  ⟨fun _ _ _ _ _ => rfl, fun _ _ _ _ _ => rfl⟩

theorem exceptMapList_ok {α β : Type} (f : α → Except String β) (l : List α)
    (l' : List β) (h : exceptMapList f l = .ok l') :
    l'.length = l.length ∧
      ∀ i (hi : i < l.length) (hi' : i < l'.length),
        f (l.get ⟨i, hi⟩) = .ok (l'.get ⟨i, hi'⟩) := by
  induction l generalizing l' with
  | nil =>
    rw [exceptMapList] at h
    cases h
    exact ⟨rfl, fun i hi => absurd hi (by simp)⟩
  | cons a as ih =>
    rw [exceptMapList] at h
    rcases hfa : f a with e | b <;> rw [hfa] at h <;> dsimp only at h
    · cases h
    · rcases hrest : exceptMapList f as with e | bs <;>
        rw [hrest] at h <;> dsimp only at h
      · cases h
      · cases h
        obtain ⟨hlen, hidx⟩ := ih bs hrest
        refine ⟨by simp [hlen], ?_⟩
        intro i hi hi'
        cases i with
        | zero => simpa using hfa
        | succ n =>
          have hn : n < as.length := by simpa using hi
          have hn' : n < bs.length := by simpa using hi'
          simpa using hidx n hn hn'

/-- **C10.** Aggregation is deterministic and ordered: whenever both adapters
normalize successfully, `ProvidersService.load` returns exactly Provider1's
jobs followed by Provider2's, and within each provider the output order is
the payload's listing order (element `i` of each output is the normalization
of element `i` of the corresponding payload). -/
theorem c10_aggregation_order (p1 : Provider1Payload) (p2 : Provider2Payload)
    (l1 l2 : List JobEntity)
    (h1 : provider1Normalize p1 = .ok l1)
    (h2 : provider2Normalize p2 = .ok l2) :
    providersServiceLoad (provider1Normalize p1) (provider2Normalize p2) =
      .ok (l1 ++ l2) ∧
    l1.length = p1.jobs.length ∧ l2.length = p2.jobsList.length ∧
    (∀ i (hi : i < p1.jobs.length) (hi' : i < l1.length),
      p1toJob (p1.jobs.get ⟨i, hi⟩) = .ok (l1.get ⟨i, hi'⟩)) ∧
    (∀ i (hi : i < p2.jobsList.length) (hi' : i < l2.length),
      p2toJob (p2.jobsList.get ⟨i, hi⟩).1 (p2.jobsList.get ⟨i, hi⟩).2 =
        .ok (l2.get ⟨i, hi'⟩)) := by
  obtain ⟨hlen1, hidx1⟩ := exceptMapList_ok p1toJob p1.jobs l1 h1
  obtain ⟨hlen2, hidx2⟩ :=
    exceptMapList_ok (fun e : String × P2Job => p2toJob e.1 e.2)
      p2.jobsList l2 h2
  refine ⟨?_, hlen1, hlen2, hidx1, hidx2⟩
  rw [providersServiceLoad, h1, h2]
  rfl

theorem insertCompanies_fields (ns : List String) :
    ∀ db : DB, (insertCompanies db ns).1.jobs = db.jobs ∧
      (insertCompanies db ns).1.skills = db.skills := by
  induction ns with
  | nil => intro db; exact ⟨rfl, rfl⟩
  | cons n ns ih =>
    intro db
    rw [insertCompanies]
    exact ⟨(ih _).1, (ih _).2⟩

theorem insertSkills_fields (ns : List String) :
    ∀ db : DB, (insertSkills db ns).1.jobs = db.jobs ∧
      (insertSkills db ns).1.companies = db.companies := by
  induction ns with
  | nil => intro db; exact ⟨rfl, rfl⟩
  | cons n ns ih =>
    intro db
    rw [insertSkills]
    exact ⟨(ih _).1, (ih _).2⟩

theorem findOrCreateCompanies_ok (db : DB) (dtos : List CompanyInfo) :
    ∃ m db' ops, findOrCreateCompanies db [] dtos = (.ok m, db', ops) ∧
      db'.jobs = db.jobs ∧ db'.skills = db.skills := by
  unfold findOrCreateCompanies
  dsimp only
  by_cases h : ((dedup (dtos.map (fun c => c.name))).filter (fun n =>
      (mapFind ((db.companies.filter (fun c =>
        c.name ∈ dedup (dtos.map (fun c => c.name)))).map
        (fun c => (c.name, c))) n).isNone)).isEmpty
  · rw [if_pos h]
    exact ⟨_, _, _, rfl, rfl, rfl⟩
  · rw [if_neg h]
    rw [List.find?_eq_none.mpr (fun x _ => by simp [List.contains])]
    exact ⟨_, _, _, rfl, (insertCompanies_fields _ db).1,
      (insertCompanies_fields _ db).2⟩

theorem findOrCreateSkills_ok (db : DB) (dtos : List String) :
    ∃ m db' ops, findOrCreateSkills db [] dtos = (.ok m, db', ops) ∧
      db'.jobs = db.jobs ∧ db'.companies = db.companies := by
  unfold findOrCreateSkills
  dsimp only
  by_cases h : ((dedup dtos).filter (fun n =>
      (mapFind ((db.skills.filter (fun s => s.name ∈ dedup dtos)).map
        (fun s => (s.name, s))) n).isNone)).isEmpty
  · rw [if_pos h]
    exact ⟨_, _, _, rfl, rfl, rfl⟩
  · rw [if_neg h]
    rw [List.find?_eq_none.mpr (fun x _ => by simp [List.contains])]
    exact ⟨_, _, _, rfl, (insertSkills_fields _ db).1,
      (insertSkills_fields _ db).2⟩

theorem firstRefConflict_some :
    ∀ (rs ex : List ProviderRef), (∃ r ∈ rs, r ∈ ex) →
      ∃ ref, firstRefConflict ex rs = some ref := by
  intro rs
  induction rs with
  | nil => rintro ex ⟨r, h, _⟩; cases h
  | cons r rs ih =>
    rintro ex ⟨r', hr', hex⟩
    rw [firstRefConflict]
    by_cases h : r ∈ ex
    · rw [if_pos h]; exact ⟨r, rfl⟩
    · rw [if_neg h]
      apply ih
      rcases List.mem_cons.mp hr' with rfl | hm
      · exact absurd hex h
      · exact ⟨r', hm, by simp [hex]⟩

/-- **C1.** When the batch of a `load` call contains a job whose provider
reference `(providerName, providerJobId)` is already persisted, the outcome
is deterministic and always the failure branch of the claim's disjunction:
the save is a plain insert that violates the unique provider-reference index,
the whole (transactional) job save rolls back, the persisted jobs table is
unchanged — so no second row with that reference ever exists — and the
wrapped call surfaces the persistence failure as its load error. -/
theorem c1_duplicate_ref_fails (db : DB) (jobs : List JobEntity)
    (j : JobEntity) (hmem : j ∈ jobs)
    (hex : ∃ row ∈ db.jobs, row.entity.provider = j.provider) :
    (∃ ref, (jobsServiceLoadRaw (.ok jobs) db [] []).1 =
      .error (.db (.uniqueJob ref))) ∧
    ((jobsServiceLoadRaw (.ok jobs) db [] []).2.1).jobs = db.jobs ∧
    (jobsServiceLoad (.ok jobs) db [] []).1 = .error loadErrorMsg ∧
    ((jobsServiceLoad (.ok jobs) db [] []).2.1).jobs = db.jobs := by
  have hne : jobs ≠ [] := List.ne_nil_of_mem hmem
  obtain ⟨m1, db1, ops1, he1, hj1, hs1⟩ :=
    findOrCreateCompanies_ok db (jobs.map (fun j => j.company))
  obtain ⟨m2, db2, ops2, he2, hj2, hc2⟩ :=
    findOrCreateSkills_ok db1 (jobs.flatMap (fun j => j.skills))
  have hconf : ∃ ref, firstRefConflict
      (db2.jobs.map (fun r => r.entity.provider))
      ((jobs.map (fun j =>
        ((mapFind m1 j.company.name).map (fun c => c.id)).getD 0)).length |> fun _ =>
        (jobs.map (fun j => j.provider))) = some ref := by
    apply firstRefConflict_some
    refine ⟨j.provider, List.mem_map_of_mem _ hmem, ?_⟩
    rw [hj2, hj1]
    obtain ⟨row, hrow, hrefeq⟩ := hex
    exact hrefeq ▸ List.mem_map_of_mem _ hrow
  obtain ⟨ref, hconf⟩ := hconf
  have hraw : ∃ ops, jobsServiceLoadRaw (.ok jobs) db [] [] =
      (.error (.db (.uniqueJob ref)), db2, ops) := by
    rw [jobsServiceLoadRaw]
    dsimp only
    rw [if_neg (by simp [List.isEmpty_iff, hne])]
    rw [he1]
    dsimp only
    rw [he2]
    dsimp only
    rw [saveJobs]
    dsimp only
    rw [show (jobs.map (fun j =>
        (j, ((mapFind m1 j.company.name).map (fun c => c.id)).getD 0,
          j.skills.filterMap (fun s =>
            (mapFind m2 s).map (fun row => row.id))))).map
        (fun t => t.1.provider) = jobs.map (fun j => j.provider) from by
      rw [List.map_map]; rfl]
    rw [show firstRefConflict (db2.jobs.map (fun r => r.entity.provider))
        (jobs.map (fun j => j.provider)) = some ref from by
      simpa using hconf]
    exact ⟨_, rfl⟩
  obtain ⟨ops, hraw⟩ := hraw
  refine ⟨⟨ref, by rw [hraw]⟩, by rw [hraw]; dsimp only; rw [hj2, hj1], ?_, ?_⟩
  · rw [jobsServiceLoad, hraw]
  · rw [jobsServiceLoad, hraw]
    dsimp only
    rw [hj2, hj1]

theorem mem_newCompanyNames (db : DB) (dtos : List CompanyInfo) (nm : String)
    (hmem : nm ∈ dtos.map (fun c => c.name))
    (hnot : nm ∉ db.companies.map (fun c => c.name)) :
    nm ∈ (dedup (dtos.map (fun c => c.name))).filter (fun n =>
      (mapFind ((db.companies.filter (fun c =>
        c.name ∈ dedup (dtos.map (fun c => c.name)))).map
        (fun c => (c.name, c))) n).isNone) := by
  have hin : nm ∈ dedup (dtos.map (fun c => c.name)) :=
    (dedup_mem nm _).mpr hmem
  have hnone : mapFind ((db.companies.filter (fun c =>
      c.name ∈ dedup (dtos.map (fun c => c.name)))).map
      (fun c => (c.name, c))) nm = none := by
    rw [mapFind_eq_none]
    intro hk
    rw [List.map_map] at hk
    obtain ⟨c, hc, hceq⟩ := List.mem_map.mp hk
    have hcdb : c ∈ db.companies := (List.mem_filter.mp hc).1
    exact hnot (hceq ▸ List.mem_map_of_mem _ hcdb)
  refine List.mem_filter.mpr ⟨hin, by rw [hnone]; rfl⟩

/-- **C9 (amended).** The reconciliation code has no conflict handling: when
a concurrent run commits one of the to-be-created company names between the
bulk read and the bulk create, the bulk create's uniqueness violation
propagates out of `findOrCreateCompanies` uncaught, and the `load` call
fails with the wrapped error — the conflict is *not* recovered by re-reading
and is surfaced as a failure of the whole call. -/
theorem c9_conflict_surfaces (db : DB) (jobs : List JobEntity)
    (intC : List String) (j : JobEntity) (hj : j ∈ jobs)
    (hnot : j.company.name ∉ db.companies.map (fun c => c.name))
    (hint : j.company.name ∈ intC) :
    (∃ nm, (jobsServiceLoadRaw (.ok jobs) db intC []).1 =
      .error (.db (.uniqueCompany nm))) ∧
    (jobsServiceLoad (.ok jobs) db intC []).1 = .error loadErrorMsg := by
  have hne : jobs ≠ [] := List.ne_nil_of_mem hj
  have hmemNew := mem_newCompanyNames db (jobs.map (fun j => j.company))
    j.company.name
    (by rw [List.map_map]; exact List.mem_map_of_mem _ hj) hnot
  have hfind : ∃ nm, ((dedup ((jobs.map (fun j => j.company)).map
      (fun c => c.name))).filter (fun n =>
      (mapFind (((db.companies.filter (fun c =>
        c.name ∈ dedup ((jobs.map (fun j => j.company)).map
          (fun c => c.name)))).map (fun c => (c.name, c)))) n).isNone)).find?
      (fun n => intC.contains n) = some nm := by
    rw [← Option.isSome_iff_exists]
    exact List.find?_isSome.mpr ⟨j.company.name, hmemNew, by simpa using hint⟩
  obtain ⟨nm, hfind⟩ := hfind
  have herr : ∃ ops, findOrCreateCompanies db intC
      (jobs.map (fun j => j.company)) =
      (.error (.uniqueCompany nm), db, ops) := by
    rw [findOrCreateCompanies]
    dsimp only
    rw [if_neg (by
      intro hempty
      rw [List.isEmpty_iff] at hempty
      rw [hempty] at hmemNew
      cases hmemNew)]
    rw [hfind]
    exact ⟨_, rfl⟩
  obtain ⟨ops, herr⟩ := herr
  constructor
  · refine ⟨nm, ?_⟩
    rw [jobsServiceLoadRaw]
    dsimp only
    rw [if_neg (by simp [List.isEmpty_iff, hne])]
    rw [herr]
  · rw [jobsServiceLoad, jobsServiceLoadRaw]
    dsimp only
    rw [if_neg (by simp [List.isEmpty_iff, hne])]
    rw [herr]

theorem insertCompanies_names (ns : List String) :
    ∀ db : DB, ((insertCompanies db ns).2).map (fun c => c.name) = ns := by
  induction ns with
  | nil => intro db; rfl
  | cons n ns ih =>
    intro db
    rw [insertCompanies]
    simpa using ih _

theorem insertSkills_names (ns : List String) :
    ∀ db : DB, ((insertSkills db ns).2).map (fun s => s.name) = ns := by
  induction ns with
  | nil => intro db; rfl
  | cons n ns ih =>
    intro db
    rw [insertSkills]
    simpa using ih _

theorem findOrCreateCompanies_spec (db : DB) (dtos : List CompanyInfo)
    (hC : (db.companies.map (fun c => c.name)).Nodup) :
    ∃ m db' ops, findOrCreateCompanies db [] dtos = (.ok m, db', ops) ∧
      ops.countP isCompanyRead = 1 ∧
      ops.countP isCompanyCreate ≤ 1 ∧
      (∀ ns, DbOp.readCompanies ns ∈ ops →
        ns = dedup (dtos.map (fun c => c.name))) ∧
      (∀ ns, DbOp.createCompanies ns ∈ ops → ∀ n ∈ ns,
        n ∈ dtos.map (fun c => c.name) ∧
          n ∉ db.companies.map (fun c => c.name)) ∧
      (m.map Prod.fst).Nodup ∧
      (∀ n, (mapFind m n).isSome ↔ n ∈ dtos.map (fun c => c.name)) := by
  have hkeysEx : ((db.companies.filter (fun c =>
      c.name ∈ dedup (dtos.map (fun c => c.name)))).map
      (fun c => (c.name, c))).map Prod.fst =
      (db.companies.filter (fun c =>
        c.name ∈ dedup (dtos.map (fun c => c.name)))).map
        (fun c => c.name) := by
    rw [List.map_map]; rfl
  have hndEx : ((db.companies.filter (fun c =>
      c.name ∈ dedup (dtos.map (fun c => c.name)))).map
      (fun c => c.name)).Nodup :=
    hC.sublist (List.Sublist.map _ (List.filter_sublist db.companies))
  have hExSub : ∀ n, n ∈ (db.companies.filter (fun c =>
      c.name ∈ dedup (dtos.map (fun c => c.name)))).map (fun c => c.name) →
      n ∈ dtos.map (fun c => c.name) := by
    intro n hn
    obtain ⟨c, hc, rfl⟩ := List.mem_map.mp hn
    have := (List.mem_filter.mp hc).2
    exact (dedup_mem c.name _).mp (by simpa using this)
  rw [findOrCreateCompanies]
  dsimp only
  by_cases hemp : ((dedup (dtos.map (fun c => c.name))).filter (fun n =>
      (mapFind ((db.companies.filter (fun c =>
        c.name ∈ dedup (dtos.map (fun c => c.name)))).map
        (fun c => (c.name, c))) n).isNone)).isEmpty
  · rw [if_pos hemp]
    rw [List.isEmpty_iff] at hemp
    refine ⟨_, _, _, rfl, rfl,
      by simp [List.countP_cons, List.countP_nil, isCompanyCreate],
      ?_, by simp, ?_, ?_⟩
    · intro ns hns
      simp only [List.mem_singleton, DbOp.readCompanies.injEq] at hns
      exact hns
    · rw [hkeysEx]
      exact hndEx
    · intro n
      rw [mapFind_isSome, hkeysEx]
      constructor
      · exact hExSub n
      · intro hn
        have hn' : n ∈ dedup (dtos.map (fun c => c.name)) :=
          (dedup_mem n _).mpr hn
        have := List.filter_eq_nil_iff.mp hemp n hn'
        simp only [Option.isNone_iff_eq_none, decide_eq_true_eq] at this
        have hsome : (mapFind ((db.companies.filter (fun c =>
            c.name ∈ dedup (dtos.map (fun c => c.name)))).map
            (fun c => (c.name, c))) n).isSome := by
          cases hmf : mapFind ((db.companies.filter (fun c =>
              c.name ∈ dedup (dtos.map (fun c => c.name)))).map
              (fun c => (c.name, c))) n with
          | none => exact absurd hmf this
          | some v => rfl
        rw [mapFind_isSome, hkeysEx] at hsome
        exact hsome
  · rw [if_neg hemp]
    rw [List.find?_eq_none.mpr (fun x _ => by simp [List.contains])]
    refine ⟨_, _, _, rfl,
      by simp [List.singleton_append, List.countP_cons, List.countP_nil,
        isCompanyRead],
      by simp [List.singleton_append, List.countP_cons, List.countP_nil,
        isCompanyRead, isCompanyCreate],
      ?_, ?_, ?_, ?_⟩
    · intro ns hns
      simp only [List.singleton_append, List.mem_cons, List.not_mem_nil,
        or_false] at hns
      rcases hns with hns | hns
      · cases hns; rfl
      · cases hns
    · intro ns hns n hn
      simp only [List.singleton_append, List.mem_cons, List.not_mem_nil,
        or_false] at hns
      rcases hns with hns | hns
      · cases hns
      · cases hns
        have hmf := List.mem_filter.mp hn
        have hnames : n ∈ dedup (dtos.map (fun c => c.name)) := hmf.1
        have hnone : mapFind ((db.companies.filter (fun c =>
            c.name ∈ dedup (dtos.map (fun c => c.name)))).map
            (fun c => (c.name, c))) n = none := by
          have := hmf.2
          simpa [Option.isNone_iff_eq_none] using this
        refine ⟨(dedup_mem n _).mp hnames, ?_⟩
        intro hdb
        obtain ⟨c, hcdb, hceq⟩ := List.mem_map.mp hdb
        have hcfil : c ∈ db.companies.filter (fun c =>
            c.name ∈ dedup (dtos.map (fun c => c.name))) :=
          List.mem_filter.mpr ⟨hcdb, by simp [hceq, hnames]⟩
        have : n ∈ ((db.companies.filter (fun c =>
            c.name ∈ dedup (dtos.map (fun c => c.name)))).map
            (fun c => (c.name, c))).map Prod.fst := by
          rw [hkeysEx]
          exact hceq ▸ List.mem_map_of_mem _ hcfil
        rw [← mapFind_isSome] at this
        rw [hnone] at this
        cases this
    · rw [List.map_append, hkeysEx, List.map_map]
      rw [show ((fun (p : String × CompanyRow) => p.1) ∘ fun c => (c.name, c)) =
        (fun c => c.name) from rfl]
      rw [insertCompanies_names]
      rw [List.nodup_append]
      refine ⟨hndEx, (dedup_nodup _).filter _, ?_⟩
      intro n hn hn'
      have hfil := List.mem_filter.mp hn'
      have hnone : mapFind ((db.companies.filter (fun c =>
          c.name ∈ dedup (dtos.map (fun c => c.name)))).map
          (fun c => (c.name, c))) n = none := by
        have := hfil.2
        simpa [Option.isNone_iff_eq_none] using this
      have : n ∈ ((db.companies.filter (fun c =>
          c.name ∈ dedup (dtos.map (fun c => c.name)))).map
          (fun c => (c.name, c))).map Prod.fst := by
        rw [hkeysEx]; exact hn
      rw [← mapFind_isSome, hnone] at this
      cases this
    · intro n
      rw [mapFind_isSome, List.map_append, hkeysEx, List.map_map]
      rw [show ((fun (p : String × CompanyRow) => p.1) ∘ fun c => (c.name, c)) =
        (fun c => c.name) from rfl]
      rw [insertCompanies_names]
      rw [List.mem_append]
      constructor
      · intro h
        rcases h with h | h
        · exact hExSub n h
        · have := (List.mem_filter.mp h).1
          exact (dedup_mem n _).mp this
      · intro hn
        have hn' : n ∈ dedup (dtos.map (fun c => c.name)) :=
          (dedup_mem n _).mpr hn
        by_cases hmf : (mapFind ((db.companies.filter (fun c =>
            c.name ∈ dedup (dtos.map (fun c => c.name)))).map
            (fun c => (c.name, c))) n).isNone
        · exact Or.inr (List.mem_filter.mpr ⟨hn', by simpa using hmf⟩)
        · refine Or.inl ?_
          have hsome : (mapFind ((db.companies.filter (fun c =>
              c.name ∈ dedup (dtos.map (fun c => c.name)))).map
              (fun c => (c.name, c))) n).isSome := by
            cases hx : mapFind ((db.companies.filter (fun c =>
                c.name ∈ dedup (dtos.map (fun c => c.name)))).map
                (fun c => (c.name, c))) n with
            | none => exact absurd (by rw [hx]; rfl) hmf
            | some v => rfl
          rw [mapFind_isSome, hkeysEx] at hsome
          exact hsome

theorem findOrCreateSkills_spec (db : DB) (dtos : List String)
    (hS : (db.skills.map (fun s => s.name)).Nodup) :
    ∃ m db' ops, findOrCreateSkills db [] dtos = (.ok m, db', ops) ∧
      ops.countP isSkillRead = 1 ∧
      ops.countP isSkillCreate ≤ 1 ∧
      (∀ ns, DbOp.readSkills ns ∈ ops →
        ns = dedup (dtos)) ∧
      (∀ ns, DbOp.createSkills ns ∈ ops → ∀ n ∈ ns,
        n ∈ dtos ∧
          n ∉ db.skills.map (fun s => s.name)) ∧
      (m.map Prod.fst).Nodup ∧
      (∀ n, (mapFind m n).isSome ↔ n ∈ dtos) := by
  have hkeysEx : ((db.skills.filter (fun c =>
      c.name ∈ dedup (dtos))).map
      (fun s => (s.name, s))).map Prod.fst =
      (db.skills.filter (fun c =>
        c.name ∈ dedup (dtos))).map
        (fun s => s.name) := by
    rw [List.map_map]; rfl
  have hndEx : ((db.skills.filter (fun c =>
      c.name ∈ dedup (dtos))).map
      (fun s => s.name)).Nodup :=
    hS.sublist (List.Sublist.map _ (List.filter_sublist db.skills))
  have hExSub : ∀ n, n ∈ (db.skills.filter (fun c =>
      c.name ∈ dedup (dtos))).map (fun s => s.name) →
      n ∈ dtos := by
    intro n hn
    obtain ⟨sk, hc, rfl⟩ := List.mem_map.mp hn
    have := (List.mem_filter.mp hc).2
    exact (dedup_mem sk.name _).mp (by simpa using this)
  rw [findOrCreateSkills]
  dsimp only
  by_cases hemp : ((dedup (dtos)).filter (fun n =>
      (mapFind ((db.skills.filter (fun c =>
        c.name ∈ dedup (dtos))).map
        (fun s => (s.name, s))) n).isNone)).isEmpty
  · rw [if_pos hemp]
    rw [List.isEmpty_iff] at hemp
    refine ⟨_, _, _, rfl, rfl,
      by simp [List.countP_cons, List.countP_nil, isSkillCreate],
      ?_, by simp, ?_, ?_⟩
    · intro ns hns
      simp only [List.mem_singleton, DbOp.readSkills.injEq] at hns
      exact hns
    · rw [hkeysEx]
      exact hndEx
    · intro n
      rw [mapFind_isSome, hkeysEx]
      constructor
      · exact hExSub n
      · intro hn
        have hn' : n ∈ dedup (dtos) :=
          (dedup_mem n _).mpr hn
        have := List.filter_eq_nil_iff.mp hemp n hn'
        simp only [Option.isNone_iff_eq_none, decide_eq_true_eq] at this
        have hsome : (mapFind ((db.skills.filter (fun c =>
            c.name ∈ dedup (dtos))).map
            (fun s => (s.name, s))) n).isSome := by
          cases hmf : mapFind ((db.skills.filter (fun c =>
              c.name ∈ dedup (dtos))).map
              (fun s => (s.name, s))) n with
          | none => exact absurd hmf this
          | some v => rfl
        rw [mapFind_isSome, hkeysEx] at hsome
        exact hsome
  · rw [if_neg hemp]
    rw [List.find?_eq_none.mpr (fun x _ => by simp [List.contains])]
    refine ⟨_, _, _, rfl,
      by simp [List.singleton_append, List.countP_cons, List.countP_nil,
        isSkillRead],
      by simp [List.singleton_append, List.countP_cons, List.countP_nil,
        isSkillRead, isSkillCreate],
      ?_, ?_, ?_, ?_⟩
    · intro ns hns
      simp only [List.singleton_append, List.mem_cons, List.not_mem_nil,
        or_false] at hns
      rcases hns with hns | hns
      · cases hns; rfl
      · cases hns
    · intro ns hns n hn
      simp only [List.singleton_append, List.mem_cons, List.not_mem_nil,
        or_false] at hns
      rcases hns with hns | hns
      · cases hns
      · cases hns
        have hmf := List.mem_filter.mp hn
        have hnames : n ∈ dedup (dtos) := hmf.1
        have hnone : mapFind ((db.skills.filter (fun c =>
            c.name ∈ dedup (dtos))).map
            (fun s => (s.name, s))) n = none := by
          have := hmf.2
          simpa [Option.isNone_iff_eq_none] using this
        refine ⟨(dedup_mem n _).mp hnames, ?_⟩
        intro hdb
        obtain ⟨sk, hcdb, hceq⟩ := List.mem_map.mp hdb
        have hcfil : sk ∈ db.skills.filter (fun c =>
            c.name ∈ dedup (dtos)) :=
          List.mem_filter.mpr ⟨hcdb, by simp [hceq, hnames]⟩
        have : n ∈ ((db.skills.filter (fun c =>
            c.name ∈ dedup (dtos))).map
            (fun s => (s.name, s))).map Prod.fst := by
          rw [hkeysEx]
          exact hceq ▸ List.mem_map_of_mem _ hcfil
        rw [← mapFind_isSome] at this
        rw [hnone] at this
        cases this
    · rw [List.map_append, hkeysEx, List.map_map]
      rw [show ((fun (p : String × SkillRow) => p.1) ∘ fun c => (c.name, c)) =
        (fun s => s.name) from rfl]
      rw [insertSkills_names]
      rw [List.nodup_append]
      refine ⟨hndEx, (dedup_nodup _).filter _, ?_⟩
      intro n hn hn'
      have hfil := List.mem_filter.mp hn'
      have hnone : mapFind ((db.skills.filter (fun c =>
          c.name ∈ dedup (dtos))).map
          (fun s => (s.name, s))) n = none := by
        have := hfil.2
        simpa [Option.isNone_iff_eq_none] using this
      have : n ∈ ((db.skills.filter (fun c =>
          c.name ∈ dedup (dtos))).map
          (fun s => (s.name, s))).map Prod.fst := by
        rw [hkeysEx]; exact hn
      rw [← mapFind_isSome, hnone] at this
      cases this
    · intro n
      rw [mapFind_isSome, List.map_append, hkeysEx, List.map_map]
      rw [show ((fun (p : String × SkillRow) => p.1) ∘ fun c => (c.name, c)) =
        (fun s => s.name) from rfl]
      rw [insertSkills_names]
      rw [List.mem_append]
      constructor
      · intro h
        rcases h with h | h
        · exact hExSub n h
        · have := (List.mem_filter.mp h).1
          exact (dedup_mem n _).mp this
      · intro hn
        have hn' : n ∈ dedup (dtos) :=
          (dedup_mem n _).mpr hn
        by_cases hmf : (mapFind ((db.skills.filter (fun c =>
            c.name ∈ dedup (dtos))).map
            (fun s => (s.name, s))) n).isNone
        · exact Or.inr (List.mem_filter.mpr ⟨hn', by simpa using hmf⟩)
        · refine Or.inl ?_
          have hsome : (mapFind ((db.skills.filter (fun c =>
              c.name ∈ dedup (dtos))).map
              (fun s => (s.name, s))) n).isSome := by
            cases hx : mapFind ((db.skills.filter (fun c =>
                c.name ∈ dedup (dtos))).map
                (fun s => (s.name, s))) n with
            | none => exact absurd (by rw [hx]; rfl) hmf
            | some v => rfl
          rw [mapFind_isSome, hkeysEx] at hsome
          exact hsome

/-- **C6.** Per batch and per entity kind, reconciliation issues exactly one
bulk existence read (over the deduplicated natural keys), at most one bulk
create (exactly over the keys that were not found, none of which pre-exists),
and returns a duplicate-free name→identity map that resolves every name the
batch references — so every occurrence of the same name resolves to the same
identity. -/
theorem c6_reconciliation (db : DB) (dtos : List CompanyInfo)
    (sdtos : List String)
    (hC : (db.companies.map (fun c => c.name)).Nodup)
    (hS : (db.skills.map (fun s => s.name)).Nodup) :
    (∃ m db' ops, findOrCreateCompanies db [] dtos = (.ok m, db', ops) ∧
      ops.countP isCompanyRead = 1 ∧
      ops.countP isCompanyCreate ≤ 1 ∧
      (∀ ns, DbOp.readCompanies ns ∈ ops →
        ns = dedup (dtos.map (fun c => c.name))) ∧
      (∀ ns, DbOp.createCompanies ns ∈ ops → ∀ n ∈ ns,
        n ∈ dtos.map (fun c => c.name) ∧
          n ∉ db.companies.map (fun c => c.name)) ∧
      (m.map Prod.fst).Nodup ∧
      (∀ n, (mapFind m n).isSome ↔ n ∈ dtos.map (fun c => c.name)) ∧
      (∀ d1 ∈ dtos, ∀ d2 ∈ dtos, d1.name = d2.name →
        mapFind m d1.name = mapFind m d2.name)) ∧
    (∃ m db' ops, findOrCreateSkills db [] sdtos = (.ok m, db', ops) ∧
      ops.countP isSkillRead = 1 ∧
      ops.countP isSkillCreate ≤ 1 ∧
      (∀ ns, DbOp.readSkills ns ∈ ops → ns = dedup sdtos) ∧
      (∀ ns, DbOp.createSkills ns ∈ ops → ∀ n ∈ ns,
        n ∈ sdtos ∧ n ∉ db.skills.map (fun s => s.name)) ∧
      (m.map Prod.fst).Nodup ∧
      (∀ n, (mapFind m n).isSome ↔ n ∈ sdtos) ∧
      (∀ n1 ∈ sdtos, ∀ n2 ∈ sdtos, n1 = n2 →
        mapFind m n1 = mapFind m n2)) := by
  obtain ⟨m, db', ops, heq, h1, h2, h3, h4, h5, h6⟩ :=
    findOrCreateCompanies_spec db dtos hC
  obtain ⟨m2, db2, ops2, heq2, g1, g2, g3, g4, g5, g6⟩ :=
    findOrCreateSkills_spec db sdtos hS
  exact ⟨⟨m, db', ops, heq, h1, h2, h3, h4, h5, h6,
      fun d1 _ d2 _ hnm => by rw [hnm]⟩,
    ⟨m2, db2, ops2, heq2, g1, g2, g3, g4, g5, g6,
      fun n1 _ n2 _ hnm => by rw [hnm]⟩⟩

/-- **C1 (witness).** Two genuinely sequential loads of the same job: the
first into an empty database succeeds, the second — whose batch carries the
already-persisted provider reference — fails with the wrapped error and
leaves the jobs table unchanged. -/
theorem c1_duplicate_ref_fails_witness :
    sampleJobA ∈ [sampleJobA] ∧
    (∃ row ∈ sampleDb.jobs, row.entity.provider = sampleJobA.provider) ∧
    (jobsServiceLoad (.ok [sampleJobA]) sampleDb [] []).1 =
      .error loadErrorMsg ∧
    ((jobsServiceLoad (.ok [sampleJobA]) sampleDb [] []).2.1).jobs =
      sampleDb.jobs := by
  have h := c1_duplicate_ref_fails sampleDb [sampleJobA] sampleJobA
    (by decide) (by decide)
  exact ⟨by decide, by decide, h.2.2.1, h.2.2.2⟩

/-- **C6 (witness).** The reconciler on the spec's example batch
`["Acme", "Acme", "Globex"]` against an empty database: the general theorem
applies, and concretely it issues exactly one bulk read and one bulk create
over the two distinct names and returns a 2-entry map in which both `"Acme"`
references are bound to one identity. -/
theorem c6_reconciliation_witness :
    (((⟨[], [], [], 1⟩ : DB).companies.map (fun c => c.name)).Nodup ∧
      ((⟨[], [], [], 1⟩ : DB).skills.map (fun s => s.name)).Nodup) ∧
    (∃ m db' ops, findOrCreateCompanies ⟨[], [], [], 1⟩ []
        [⟨"Acme", none, none⟩, ⟨"Acme", none, none⟩, ⟨"Globex", none, none⟩] =
        (.ok m, db', ops) ∧ ops.countP isCompanyRead = 1 ∧
        ops.countP isCompanyCreate ≤ 1) ∧
    findOrCreateCompanies ⟨[], [], [], 1⟩ []
        [⟨"Acme", none, none⟩, ⟨"Acme", none, none⟩, ⟨"Globex", none, none⟩] =
      (.ok [("Acme", ⟨1, "Acme", none, none⟩),
            ("Globex", ⟨2, "Globex", none, none⟩)],
        ⟨[⟨1, "Acme", none, none⟩, ⟨2, "Globex", none, none⟩], [], [], 3⟩,
        [DbOp.readCompanies ["Acme", "Globex"],
         DbOp.createCompanies ["Acme", "Globex"]]) := by
  have h := c6_reconciliation ⟨[], [], [], 1⟩
    [⟨"Acme", none, none⟩, ⟨"Acme", none, none⟩, ⟨"Globex", none, none⟩]
    ["TypeScript"] (by decide) (by decide)
  obtain ⟨⟨m, db', ops, heq, h1, h2, _⟩, _⟩ := h
  exact ⟨⟨by decide, by decide⟩, ⟨m, db', ops, heq, h1, h2⟩, by decide⟩

/-- **C9 (witness of the amended claim).** A concurrent writer commits
`"Acme"` between the bulk read and the bulk create: the reconciler fails with
the company-uniqueness violation and `load` surfaces the wrapped error. -/
theorem c9_conflict_surfaces_witness :
    sampleJobA ∈ [sampleJobA] ∧
    sampleJobA.company.name ∉
      ((⟨[], [], [], 1⟩ : DB).companies.map (fun c => c.name)) ∧
    sampleJobA.company.name ∈ ["Acme"] ∧
    (jobsServiceLoad (.ok [sampleJobA]) ⟨[], [], [], 1⟩ ["Acme"] []).1 =
      .error loadErrorMsg := by
  have h := c9_conflict_surfaces ⟨[], [], [], 1⟩ [sampleJobA] ["Acme"]
    sampleJobA (by decide) (by decide) (by decide)
  exact ⟨by decide, by decide, by decide, h.2⟩

/-- **C9 (counterexample).** The claim says a creation conflict is *never*
surfaced as a failure of the `load` call; here is a concrete execution where
it is: with `"Acme"` committed concurrently inside the read→create window,
the raw pipeline fails with the company-uniqueness violation and the call
returns the wrapped error instead of recovering. -/
theorem c9_conflict_surfaces_counterexample :
    (jobsServiceLoadRaw (.ok [sampleJobA]) ⟨[], [], [], 1⟩ ["Acme"] []).1 =
      .error (.db (.uniqueCompany "Acme")) ∧
    (jobsServiceLoad (.ok [sampleJobA]) ⟨[], [], [], 1⟩ ["Acme"] []).1 =
      .error loadErrorMsg := by
  refine ⟨by decide, by decide⟩

/-- **C10 (witness).** The aggregation order on concrete payloads: the
combined result is Provider1's normalized job followed by Provider2's. -/
theorem c10_aggregation_order_witness :
    provider1Normalize samplePayload1 = .ok [sampleExpected1] ∧
    provider2Normalize samplePayload2 = .ok [sampleExpected2] ∧
    providersServiceLoad (provider1Normalize samplePayload1)
        (provider2Normalize samplePayload2) =
      .ok [sampleExpected1, sampleExpected2] := by
  have h := c10_aggregation_order samplePayload1 samplePayload2
    [sampleExpected1] [sampleExpected2] (by decide) (by decide)
  exact ⟨by decide, by decide, h.1⟩

end JobIngest
